import Mathlib

/-!
Verification of the retrieval core of the Simple RAG Emigration Service
(src/railway-deployment/main.py): the similarity search, query enhancement,
initialization and result-assembly logic, shallowly embedded in Lean.

Embedding vectors are modelled over ℚ (exact arithmetic in place of float32).
The sentence-transformer embedder and the faiss L2 normalizer are external
black boxes, threaded as function parameters. The faiss inner-product index
is not part of the repository, so its search is modelled from the
specification (exact brute-force top-k inner-product search).
-/

deriving instance DecidableEq for Except

/-- An embedding vector: one float32 row of main.py, modelled over ℚ. -/
abbrev Vec := List ℚ

/-- Inner product of two vectors. -/
def dot (v w : Vec) : ℚ := (List.zipWith (fun a b => a * b) v w).sum

/-- The sentence-transformer embedder: text to vector, may raise (black box). -/
abbrev Embedder := String → Except String Vec

/-- A corpus document of main.py: content plus the metadata fields that every
document of get_emigration_documents carries. -/
structure Doc where
  content : String
  source : String
  country : String
  category : String
deriving Repr, DecidableEq, Inhabited

/-- The hardcoded corpus (main.py, get_emigration_documents, lines 89-140). -/
def get_emigration_documents : List Doc :=
  [ { content := "Portugal D7 visa requirements for US citizens include proof of accommodation, health insurance covering at least €30,000, and sufficient funds of approximately €7,200 annually (€600/month). The application process typically takes 60-90 days through Portuguese consulates. Required documents include passport, background check, proof of income, accommodation contract, and health insurance. The D7 visa is renewable and leads to permanent residency after 5 years.",
      source := "Portugal Immigration Authority 2024",
      country := "Portugal",
      category := "visa_requirements" },
    { content := "Cost of living in Lisbon, Portugal: One-bedroom apartments range from €700-1,400/month in central areas, with utilities averaging €80-120/month. Groceries cost 30-40% less than major US cities. Public transportation is €40/month. Restaurant meals range from €8-15 for casual dining. Internet costs €25-40/month for high-speed connections.",
      source := "Lisbon Cost Analysis 2024",
      country := "Portugal",
      category := "cost_of_living" },
    { content := "Spain digital nomad visa allows remote workers to live in Spain while working for foreign companies. Minimum income requirement is €2,000/month. Visa valid for up to 5 years. Required documents include employment contract, proof of income, health insurance, and criminal background check. Processing time is 15-45 days.",
      source := "Spain Immigration 2024",
      country := "Spain",
      category := "visa_requirements" },
    { content := "Mexico Temporary Resident Visa for US citizens requires proof of income ($1,620/month) or bank balance ($27,000). Valid for up to 4 years, renewable. Can lead to permanent residency. Processing through Mexican consulates takes 10-20 business days. Health insurance not mandatory but recommended.",
      source := "Mexico Immigration 2024",
      country := "Mexico",
      category := "visa_requirements" },
    { content := "Germany EU Blue Card for highly skilled workers requires university degree and job offer with salary €56,400+ (€43,992 for shortage occupations). Valid for 4 years, leads to permanent residency after 21 months with B1 German or 33 months with A1 German. Family reunification allowed immediately.",
      source := "Germany Immigration 2024",
      country := "Germany",
      category := "visa_requirements" },
    { content := "Canada Express Entry system for skilled workers uses Comprehensive Ranking System (CRS). Minimum scores vary (typically 470-490). Requires language tests, education assessment, and proof of funds ($13,310 for single applicant). Processing time 6 months. Provincial Nominee Programs offer additional pathways.",
      source := "Immigration Canada 2024",
      country := "Canada",
      category := "visa_requirements" },
    { content := "Australia skilled migration requires occupation on skilled occupation list, skills assessment, and English proficiency. SkillSelect system uses points test. Minimum investment $2,500 AUD application fee plus health exams. Processing 8-12 months. Regional visas available with lower requirements.",
      source := "Australia Immigration 2024",
      country := "Australia",
      category := "visa_requirements" },
    { content := "Costa Rica Pensionado program requires $1,000/month guaranteed pension income. Provides path to permanent residency with benefits including tax exemptions on foreign income, duty-free import of household goods, and reduced healthcare costs. Application through Costa Rican consulates takes 6-12 months.",
      source := "Costa Rica Immigration 2024",
      country := "Costa Rica",
      category := "visa_requirements" } ]

/-- The pydantic request model RAGQuery (main.py lines 143-147), with its
declared defaults for omitted fields. -/
structure RAGQuery where
  query : String
  country : Option String := none
  category : Option String := some "general"
  max_results : Option Int := some 5

/-- One element of the response results list (main.py lines 149-153 and the
metadata dict built at lines 216-221). -/
structure RAGResult where
  content : String
  source : String
  relevance_score : ℚ
  country : String
  category : String
  rank : Nat
  document_index : Nat
deriving Repr, DecidableEq

/-- The response model RAGResponse (main.py lines 155-159), without the
wall-clock processing_time_ms field. -/
structure RAGResponse where
  results : List RAGResult
  query : String
  total_results : Nat
deriving Repr, DecidableEq

/-- A failure raised inside the try-block of retrieve_context, wrapped by the
handler at main.py line 234 into an HTTP 500 response. -/
inductive InnerErr where
  | vectorization (msg : String)
  | invalidK
deriving Repr, DecidableEq

/-- The observable failure modes of the retrieve-context endpoint:
the 503 not-initialized guard (lines 183-187) and the 500 wrapper (line 234). -/
inductive RAGError where
  | notInitialized (loading_error : Option String)
  | searchFailed (e : InnerErr)
deriving Repr, DecidableEq

/-- The module-level globals of main.py (lines 50-54). The faiss index object
is modelled as the list of vectors it stores. -/
structure RAGState where
  embedder : Option Embedder
  index : Option (List Vec)
  documents : List Doc
  metadata : List Doc
  loading_error : Option String

/-- The pre-init null state of the globals (main.py lines 50-54). -/
def initState : RAGState :=
  { embedder := none, index := none, documents := [], metadata := [],
    loading_error := none }

/-- Ranking order on (score, document index) pairs: higher score first, ties
broken by ascending original document index. -/
def rankRel (a b : ℚ × Nat) : Prop := b.1 < a.1 ∨ (a.1 = b.1 ∧ a.2 ≤ b.2)

instance : DecidableRel rankRel := fun a b =>
  inferInstanceAs (Decidable (b.1 < a.1 ∨ (a.1 = b.1 ∧ a.2 ≤ b.2)))

instance : IsTotal (ℚ × Nat) rankRel where
  total a b := by
    unfold rankRel
    rcases lt_trichotomy a.1 b.1 with h | h | h
    · exact Or.inr (Or.inl h)
    · rcases Nat.le_total a.2 b.2 with h2 | h2
      · exact Or.inl (Or.inr ⟨h, h2⟩)
      · exact Or.inr (Or.inr ⟨h.symm, h2⟩)
    · exact Or.inl (Or.inl h)

instance : IsTrans (ℚ × Nat) rankRel where
  trans a b c hab hbc := by
    unfold rankRel at *
    rcases hab with h1 | ⟨h1, h1i⟩ <;> rcases hbc with h2 | ⟨h2, h2i⟩
    · exact Or.inl (h2.trans h1)
    · exact Or.inl (h2 ▸ h1)
    · exact Or.inl (h1 ▸ h2)
    · exact Or.inr ⟨h1.trans h2, h1i.trans h2i⟩

/-- Modelled from the spec: the faiss IndexFlatIP search called at main.py
line 205 is not part of the repository. Per the spec, SimilarityIndex.search
computes the inner product of the query against every stored vector, selects
the top-k by score with ties broken by ascending original document index,
returns min(k, N) pairs sorted by score descending, and fails when k ≤ 0
(InvalidKError; faiss likewise rejects a non-positive k). -/
def searchIndex (stored : List Vec) (q : Vec) (k : Int) :
    Except InnerErr (List (ℚ × Nat)) :=
  if k ≤ 0 then .error .invalidK
  else
    let scored := stored.enum.map (fun p => (dot q p.2, p.1))
    .ok ((List.insertionSort rankRel scored).take (min k.toNat stored.length))

/-- Python truthiness default at main.py line 204: request.max_results or 5
(both None and 0 are falsy and fall back to 5). -/
def orFive : Option Int → Int
  | none => 5
  | some m => if m = 0 then 5 else m

/-- Python str.replace as called at main.py line 197, with the one-character
pattern underscore and one-character replacement space: it rewrites each
underscore character to a space. -/
def replaceUnderscores (s : String) : String :=
  String.mk (s.data.map (fun c => if c = '_' then ' ' else c))

/-- Query enhancement (main.py lines 192-197): append the country when truthy,
then the category with underscores replaced by spaces when truthy and not the
literal general string. -/
def enhanceQuery (query : String) (country category : Option String) : String :=
  let q1 := match country with
    | some c => if c = "" then query else query ++ " " ++ c
    | none => query
  match category with
  | some cat =>
      if cat = "" ∨ cat = "general" then q1
      else q1 ++ " " ++ replaceUnderscores cat
  | none => q1

/-- Batch encoding embedder.encode(texts): each text embedded in order,
failing on the first error, as one model call (main.py line 69). -/
def encodeAll (emb : Embedder) : List String → Except String (List Vec)
  | [] => .ok []
  | t :: ts =>
    match emb t, encodeAll emb ts with
    | .error e, _ => .error e
    | .ok _, .error e => .error e
    | .ok v, .ok vs => .ok (v :: vs)

/-- initialize_simple_rag (main.py lines 56-87): assigns the globals step by
step inside a try-block; on an exception, loading_error records its message
and every assignment already made persists. loadModel is the outcome of
SentenceTransformer(MODEL_NAME) at line 62; normalizeL2 is the black-box
faiss.normalize_L2 of line 77, applied row-wise. -/
def initialize_simple_rag (loadModel : Except String Embedder)
    (normalizeL2 : Vec → Vec) (s : RAGState) : RAGState :=
  match loadModel with
  | .error e => { s with loading_error := some e }
  | .ok emb =>
    let s1 := { s with embedder := some emb }
    let docs := get_emigration_documents
    let s2 := { s1 with documents := docs }
    match encodeAll emb (docs.map (fun d => d.content)) with
    | .error e => { s2 with loading_error := some e }
    | .ok doc_embeddings =>
      let s3 := { s2 with index := some (doc_embeddings.map normalizeL2) }
      { s3 with metadata := docs }

/-- The result-assembly loop of retrieve_context (main.py lines 208-222):
enumerate the (score, index) pairs, keep those whose index is below
len(metadata), and build each RAGResult from the document at that index,
with rank = 1-based position in the pre-filter enumeration. -/
def assembleResults (metadata : List Doc) (pairs : List (ℚ × Nat)) :
    List RAGResult :=
  pairs.enum.filterMap (fun pr =>
    if pr.2.2 < metadata.length then
      let doc := metadata.getD pr.2.2 default
      some { content := doc.content, source := doc.source,
             relevance_score := pr.2.1, country := doc.country,
             category := doc.category, rank := pr.1 + 1,
             document_index := pr.2.2 }
    else none)

/-- retrieve_context (main.py lines 177-234): the 503 not-initialized guard,
query enhancement, query embedding and normalization, k clamping against
len(documents), the index search, and result assembly; any exception inside
the try-block surfaces as a searchFailed (HTTP 500) error. -/
def retrieve_context (normalizeL2 : Vec → Vec) (s : RAGState) (req : RAGQuery) :
    Except RAGError RAGResponse :=
  match s.embedder, s.index with
  | some emb, some stored =>
    let enhanced_query := enhanceQuery req.query req.country req.category
    match emb enhanced_query with
    | .error e => .error (.searchFailed (.vectorization e))
    | .ok qv =>
      let query_embedding := normalizeL2 qv
      let k : Int := min (orFive req.max_results) (s.documents.length : Int)
      match searchIndex stored query_embedding k with
      | .error e => .error (.searchFailed e)
      | .ok pairs =>
        let results := assembleResults s.metadata pairs
        .ok { results := results, query := req.query,
              total_results := results.length }
  | _, _ => .error (.notInitialized s.loading_error)

/-- A trivial embedder for concrete runs: every text maps to the empty
(zero-dimension) vector. -/
def zeroDimEmbedder : Embedder := fun _ => .ok []

/-- An embedder whose model inference always raises. -/
def failingEmbedder : Embedder := fun _ => .error "model inference failed"

/-- Concrete corpus documents for test runs. -/
def docA : Doc :=
  { content := "doc a", source := "src a", country := "aa", category := "ka" }

/-- Concrete corpus documents for test runs. -/
def docB : Doc :=
  { content := "doc b", source := "src b", country := "bb", category := "kb" }

/-- Concrete corpus documents for test runs. -/
def docC : Doc :=
  { content := "doc c", source := "src c", country := "cc", category := "kc" }

/-- A ready three-document state (zero-dimension vectors, so every score
is 0 and ranking is decided by the index tie-break). -/
def testState : RAGState :=
  { embedder := some zeroDimEmbedder, index := some [[], [], []],
    documents := [docA, docB, docC], metadata := [docA, docB, docC],
    loading_error := none }

/-- A ready state whose corpus is empty. -/
def emptyCorpusState : RAGState :=
  { embedder := some zeroDimEmbedder, index := some [], documents := [],
    metadata := [], loading_error := none }

/-- Unfolding retrieve_context in the ready case, once the query embedding
has succeeded: the outcome is decided by the index search. -/
theorem retrieve_context_eq (nrm : Vec → Vec) (s : RAGState) (req : RAGQuery)
    (emb : Embedder) (stored : List Vec) (v : Vec)
    (hemb : s.embedder = some emb) (hidx : s.index = some stored)
    (hq : emb (enhanceQuery req.query req.country req.category) = .ok v) :
    retrieve_context nrm s req =
      match searchIndex stored (nrm v)
          (min (orFive req.max_results) (s.documents.length : Int)) with
      | .error e => .error (.searchFailed e)
      | .ok pairs =>
        .ok { results := assembleResults s.metadata pairs, query := req.query,
              total_results := (assembleResults s.metadata pairs).length } := by
  obtain ⟨oe, oi, docs, md, le⟩ := s
  simp only at hemb hidx
  subst hemb hidx
  simp only [retrieve_context, hq]

/-- retrieve_context when the query embedding raises: the error surfaces as a
searchFailed vectorization failure. -/
theorem retrieve_context_embed_error (nrm : Vec → Vec) (s : RAGState)
    (req : RAGQuery) (emb : Embedder) (stored : List Vec) (msg : String)
    (hemb : s.embedder = some emb) (hidx : s.index = some stored)
    (hq : emb (enhanceQuery req.query req.country req.category) = .error msg) :
    retrieve_context nrm s req = .error (.searchFailed (.vectorization msg)) := by
  obtain ⟨oe, oi, docs, md, le⟩ := s
  simp only at hemb hidx
  subst hemb hidx
  simp only [retrieve_context, hq]

/-- retrieve_context in the ready case with a successful search. -/
theorem retrieve_context_ok (nrm : Vec → Vec) (s : RAGState) (req : RAGQuery)
    (emb : Embedder) (stored : List Vec) (v : Vec) (pairs : List (ℚ × Nat))
    (hemb : s.embedder = some emb) (hidx : s.index = some stored)
    (hq : emb (enhanceQuery req.query req.country req.category) = .ok v)
    (hsearch : searchIndex stored (nrm v)
        (min (orFive req.max_results) (s.documents.length : Int)) = .ok pairs) :
    retrieve_context nrm s req =
      .ok { results := assembleResults s.metadata pairs, query := req.query,
            total_results := (assembleResults s.metadata pairs).length } := by
  rw [retrieve_context_eq nrm s req emb stored v hemb hidx hq, hsearch]

/-- retrieve_context in the ready case with a failed search. -/
theorem retrieve_context_search_error (nrm : Vec → Vec) (s : RAGState)
    (req : RAGQuery) (emb : Embedder) (stored : List Vec) (v : Vec)
    (e : InnerErr)
    (hemb : s.embedder = some emb) (hidx : s.index = some stored)
    (hq : emb (enhanceQuery req.query req.country req.category) = .ok v)
    (hsearch : searchIndex stored (nrm v)
        (min (orFive req.max_results) (s.documents.length : Int)) = .error e) :
    retrieve_context nrm s req = .error (.searchFailed e) := by
  rw [retrieve_context_eq nrm s req emb stored v hemb hidx hq, hsearch]

/-- retrieve_context with a missing embedder or index returns the 503
not-initialized error (shared helper). -/
theorem retrieve_context_not_ready_aux (nrm : Vec → Vec) (s : RAGState)
    (req : RAGQuery) (h : s.embedder = none ∨ s.index = none) :
    retrieve_context nrm s req = .error (.notInitialized s.loading_error) := by
  obtain ⟨oe, oi, docs, md, le⟩ := s
  rcases h with h | h <;> simp only at h <;> subst h
  · cases oi <;> rfl
  · cases oe <;> rfl

/-- C6: whenever the engine is not initialized (embedder or index absent),
retrieve_context fails with the 503 not-initialized error carrying
loading_error, independently of the request — no search is attempted. -/
theorem retrieve_context_not_ready (nrm : Vec → Vec) (s : RAGState)
    (req : RAGQuery) (h : s.embedder = none ∨ s.index = none) :
    retrieve_context nrm s req = .error (.notInitialized s.loading_error) :=
  retrieve_context_not_ready_aux nrm s req h

/-- C6 witness at a concrete not-ready state. -/
theorem retrieve_context_not_ready_witness :
    retrieve_context id initState { query := "visa requirements" } =
      .error (.notInitialized none) :=
  retrieve_context_not_ready id initState { query := "visa requirements" }
    (Or.inl rfl)

/-- searchIndex rejects a non-positive k. -/
theorem searchIndex_nonpos (stored : List Vec) (q : Vec) (k : Int)
    (hk : k ≤ 0) : searchIndex stored q k = .error .invalidK := by
  simp [searchIndex, hk]

/-- C5: a call whose effective k is non-positive (e.g. max_results = -1)
fails deterministically with the invalid-k error — the spec-modelled search
rejects k ≤ 0 and the endpoint handler surfaces that rejection as its
searchFailed error; no crash, no result list. -/
theorem retrieve_context_negative_max_results (nrm : Vec → Vec) (s : RAGState)
    (req : RAGQuery) (emb : Embedder) (stored : List Vec) (v : Vec) (m : Int)
    (hemb : s.embedder = some emb) (hidx : s.index = some stored)
    (hq : emb (enhanceQuery req.query req.country req.category) = .ok v)
    (hmr : req.max_results = some m) (hm : m < 0) :
    retrieve_context nrm s req = .error (.searchFailed .invalidK) := by
  have horf : orFive req.max_results = m := by
    rw [hmr]; simp only [orFive]; rw [if_neg (by omega)]
  have hk : min (orFive req.max_results) (s.documents.length : Int) ≤ 0 := by
    rw [horf]; omega
  exact retrieve_context_search_error nrm s req emb stored v .invalidK
    hemb hidx hq (searchIndex_nonpos _ _ _ hk)

/-- C5 witness: max_results = -1 on the concrete ready state. -/
theorem retrieve_context_negative_max_results_witness :
    retrieve_context id testState
      { query := "visa requirements", max_results := some (-1) } =
      .error (.searchFailed .invalidK) :=
  retrieve_context_negative_max_results id testState
    { query := "visa requirements", max_results := some (-1) }
    zeroDimEmbedder [[], [], []] [] (-1) rfl rfl rfl rfl (by omega)

/-- C2 amended: on an empty corpus, retrieve_context computes
k = min(max_results or 5, 0) ≤ 0 and the search rejects it, so the call fails
(it never returns a result list) — but with the generic searchFailed
invalid-k error of the exception handler, not a dedicated EmptyCorpusError. -/
theorem retrieve_context_empty_corpus (nrm : Vec → Vec) (s : RAGState)
    (req : RAGQuery) (emb : Embedder) (stored : List Vec) (v : Vec)
    (hemb : s.embedder = some emb) (hidx : s.index = some stored)
    (hq : emb (enhanceQuery req.query req.country req.category) = .ok v)
    (hdocs : s.documents = []) :
    retrieve_context nrm s req = .error (.searchFailed .invalidK) := by
  have hk : min (orFive req.max_results) (s.documents.length : Int) ≤ 0 := by
    rw [hdocs]; simp only [List.length_nil, Nat.cast_zero]; omega
  exact retrieve_context_search_error nrm s req emb stored v .invalidK
    hemb hidx hq (searchIndex_nonpos _ _ _ hk)

/-- C2 counterexample: on the concrete empty-corpus state the endpoint
returns the generic searchFailed invalid-k error — observably the same error
that max_results = -1 produces on a non-empty corpus — and the embedded error
type of main.py has no empty-corpus case at all, so no EmptyCorpusError is
(or can be) raised. -/
theorem retrieve_context_empty_corpus_counterexample :
    retrieve_context id emptyCorpusState { query := "visa requirements" } =
        .error (.searchFailed .invalidK) ∧
    retrieve_context id testState
        { query := "visa requirements", max_results := some (-1) } =
        .error (.searchFailed .invalidK) ∧
    (∀ e : RAGError, e = .notInitialized none ∨ e = .searchFailed .invalidK ∨
      (∃ d, e = .notInitialized (some d)) ∨ (∃ m, e = .searchFailed (.vectorization m))) := by
  refine ⟨by rfl, by rfl, ?_⟩
  rintro (d | e)
  · cases d
    · exact Or.inl rfl
    · exact Or.inr (Or.inr (Or.inl ⟨_, rfl⟩))
  · cases e
    · exact Or.inr (Or.inr (Or.inr ⟨_, rfl⟩))
    · exact Or.inr (Or.inl rfl)

/-- C2 amended witness: the empty-corpus failure at a concrete state. -/
theorem retrieve_context_empty_corpus_witness :
    retrieve_context id emptyCorpusState { query := "visa requirements" } =
      .error (.searchFailed .invalidK) :=
  retrieve_context_empty_corpus id emptyCorpusState
    { query := "visa requirements" } zeroDimEmbedder [] [] rfl rfl rfl rfl

/-- C3: the string handed to the vectorizer is the original query with the
country appended space-separated when given (truthy), then the category with
each underscore replaced by a space appended when given (truthy) and not the
literal general; the concrete scenario vectorizes exactly the single string
"visa requirements Portugal cost of living"; and the endpoint outcome depends
on the embedder only through its value at that one enhanced string. -/
theorem enhanceQuery_spec :
    (∀ q c cat, c ≠ "" → cat ≠ "" → cat ≠ "general" →
        enhanceQuery q (some c) (some cat) =
          q ++ " " ++ c ++ " " ++ replaceUnderscores cat) ∧
    (∀ q c, c ≠ "" →
        enhanceQuery q (some c) (some "general") = q ++ " " ++ c ∧
        enhanceQuery q (some c) none = q ++ " " ++ c) ∧
    (∀ q cat, cat ≠ "" → cat ≠ "general" →
        enhanceQuery q none (some cat) = q ++ " " ++ replaceUnderscores cat) ∧
    (∀ q, enhanceQuery q none (some "general") = q ∧
        enhanceQuery q none none = q) ∧
    enhanceQuery "visa requirements" (some "Portugal") (some "cost_of_living") =
      "visa requirements Portugal cost of living" ∧
    (∀ (nrm : Vec → Vec) (s : RAGState) (req : RAGQuery) (emb emb2 : Embedder),
      s.embedder = some emb →
      emb (enhanceQuery req.query req.country req.category) =
        emb2 (enhanceQuery req.query req.country req.category) →
      retrieve_context nrm s req =
        retrieve_context nrm { s with embedder := some emb2 } req) := by
  refine ⟨?_, ?_, ?_, ?_, by decide, ?_⟩
  · intro q c cat hc hcat1 hcat2
    simp [enhanceQuery, hc, hcat1, hcat2]
  · intro q c hc
    constructor <;> simp [enhanceQuery, hc]
  · intro q cat hcat1 hcat2
    simp [enhanceQuery, hcat1, hcat2]
  · intro q
    constructor <;> simp [enhanceQuery]
  · intro nrm s req emb emb2 hemb hagree
    obtain ⟨oe, oi, docs, md, le⟩ := s
    simp only at hemb
    subst hemb
    cases oi with
    | none => rfl
    | some stored =>
      cases hv : emb (enhanceQuery req.query req.country req.category) with
      | error msg =>
        rw [retrieve_context_embed_error nrm _ req emb stored msg rfl rfl hv,
          retrieve_context_embed_error nrm _ req emb2 stored msg rfl rfl
            (hagree ▸ hv)]
      | ok v =>
        rw [retrieve_context_eq nrm _ req emb stored v rfl rfl hv,
          retrieve_context_eq nrm _ req emb2 stored v rfl rfl (hagree ▸ hv)]

/-- C3 witness: the concrete scenario, through the general append rule. -/
theorem enhanceQuery_spec_witness :
    enhanceQuery "visa requirements" (some "Portugal") (some "cost_of_living") =
      "visa requirements" ++ " " ++ "Portugal" ++ " " ++
        replaceUnderscores "cost_of_living" :=
  enhanceQuery_spec.1 "visa requirements" "Portugal" "cost_of_living"
    (by decide) (by decide) (by decide)

/-- C10: a successful response echoes the original query string, never the
enhanced query. -/
theorem retrieve_context_echoes_query (nrm : Vec → Vec) (s : RAGState)
    (req : RAGQuery) (resp : RAGResponse)
    (h : retrieve_context nrm s req = .ok resp) : resp.query = req.query := by
  obtain ⟨oe, oi, docs, md, le⟩ := s
  cases oe with
  | none => cases oi <;> exact Except.noConfusion h
  | some emb =>
    cases oi with
    | none => exact Except.noConfusion h
    | some stored =>
      cases hv : emb (enhanceQuery req.query req.country req.category) with
      | error msg =>
        rw [retrieve_context_embed_error nrm _ req emb stored msg rfl rfl hv]
          at h
        exact Except.noConfusion h
      | ok v =>
        rw [retrieve_context_eq nrm _ req emb stored v rfl rfl hv] at h
        split at h
        · exact Except.noConfusion h
        · cases h
          rfl

/-- C10 witness: a concrete run in which the enhanced query differs from the
original query string, yet the response echoes the original. -/
theorem retrieve_context_echoes_query_witness :
    ({ results := [
        { content := "doc a", source := "src a", relevance_score := 0,
          country := "aa", category := "ka", rank := 1, document_index := 0 },
        { content := "doc b", source := "src b", relevance_score := 0,
          country := "bb", category := "kb", rank := 2, document_index := 1 } ],
       query := "visa requirements", total_results := 2 } : RAGResponse).query =
      ({ query := "visa requirements", country := some "Portugal",
         category := some "cost_of_living", max_results := some 2 } :
         RAGQuery).query :=
  retrieve_context_echoes_query id testState
    { query := "visa requirements", country := some "Portugal",
      category := some "cost_of_living", max_results := some 2 }
    { results := [
        { content := "doc a", source := "src a", relevance_score := 0,
          country := "aa", category := "ka", rank := 1, document_index := 0 },
        { content := "doc b", source := "src b", relevance_score := 0,
          country := "bb", category := "kb", rank := 2, document_index := 1 } ],
      query := "visa requirements", total_results := 2 } (by decide)

/-- searchIndex in the positive-k case: the sorted scored list, truncated. -/
theorem searchIndex_pos (stored : List Vec) (q : Vec) (k : Int) (hk : 0 < k) :
    searchIndex stored q k =
      .ok ((List.insertionSort rankRel
        (stored.enum.map (fun p => (dot q p.2, p.1)))).take
          (min k.toNat stored.length)) := by
  simp [searchIndex, show ¬k ≤ 0 from not_le.mpr hk]

/-- rankRel implies the score of the later pair is no larger. -/
theorem rankRel_score_le (a b : ℚ × Nat) (h : rankRel a b) : b.1 ≤ a.1 := by
  rcases h with h | ⟨h, _⟩
  · exact le_of_lt h
  · exact le_of_eq h.symm

/-- Every pair a search returns carries an in-range document index. -/
theorem searchIndex_mem (stored : List Vec) (q : Vec) (k : Int)
    (pairs : List (ℚ × Nat)) (h : searchIndex stored q k = .ok pairs) :
    ∀ pr ∈ pairs, pr.2 < stored.length := by
  intro pr hpr
  by_cases hk : k ≤ 0
  · rw [searchIndex_nonpos _ _ _ hk] at h
    exact Except.noConfusion h
  · rw [searchIndex_pos _ _ _ (lt_of_not_le hk)] at h
    cases h
    have h1 := List.take_subset _ _ hpr
    have h2 := (List.perm_insertionSort rankRel _).mem_iff.mp h1
    obtain ⟨p, hp, rfl⟩ := List.mem_map.mp h2
    obtain ⟨i, x⟩ := p
    obtain ⟨hlt, -⟩ := List.getElem?_eq_some.mp
      (List.mk_mem_enum_iff_getElem?.mp hp)
    exact hlt

/-- The search returns exactly min(k, N) pairs. -/
theorem searchIndex_length (stored : List Vec) (q : Vec) (k : Int)
    (pairs : List (ℚ × Nat)) (h : searchIndex stored q k = .ok pairs) :
    pairs.length = min k.toNat stored.length := by
  by_cases hk : k ≤ 0
  · rw [searchIndex_nonpos _ _ _ hk] at h
    exact Except.noConfusion h
  · rw [searchIndex_pos _ _ _ (lt_of_not_le hk)] at h
    cases h
    simp only [List.length_take, List.length_insertionSort, List.length_map,
      List.enum_length]
    omega

/-- The pairs a search returns are sorted under the ranking order. -/
theorem searchIndex_sorted (stored : List Vec) (q : Vec) (k : Int)
    (pairs : List (ℚ × Nat)) (h : searchIndex stored q k = .ok pairs) :
    pairs.Pairwise rankRel := by
  by_cases hk : k ≤ 0
  · rw [searchIndex_nonpos _ _ _ hk] at h
    exact Except.noConfusion h
  · rw [searchIndex_pos _ _ _ (lt_of_not_le hk)] at h
    cases h
    exact List.Pairwise.sublist (List.take_sublist _ _)
      (List.sorted_insertionSort rankRel _)

/-- C1: for a non-empty index and positive k, the search result is the prefix
of the brute-force ranking: there is a list S that is a permutation of the
scored list (every stored vector scored by inner product against the query),
sorted under rankRel (score descending, ties broken by ascending original
document index), whose first min(k, N) pairs are exactly the search output;
consequently the returned scores are non-increasing. In the exact rational
model the 1e-6 float tolerance of the spec sharpens to equality. -/
theorem searchIndex_topk (stored : List Vec) (q : Vec) (k : Int)
    (_hstored : stored ≠ []) (hk : 1 ≤ k) :
    ∃ S : List (ℚ × Nat),
      S.Perm (stored.enum.map (fun p => (dot q p.2, p.1))) ∧
      S.Pairwise rankRel ∧
      searchIndex stored q k = .ok (S.take (min k.toNat stored.length)) ∧
      ∀ pairs, searchIndex stored q k = .ok pairs →
        pairs.Pairwise (fun a b => b.1 ≤ a.1) := by
  refine ⟨List.insertionSort rankRel
      (stored.enum.map (fun p => (dot q p.2, p.1))),
    List.perm_insertionSort _ _, List.sorted_insertionSort _ _,
    searchIndex_pos stored q k (by omega), fun pairs h => ?_⟩
  exact (searchIndex_sorted stored q k pairs h).imp
    (fun hab => rankRel_score_le _ _ hab)

/-- C1 witness: the concrete three-vector index with k = 2. -/
theorem searchIndex_topk_witness :
    ([[], [], []] : List Vec) ≠ [] ∧ (1 : Int) ≤ 2 ∧
    ∃ S : List (ℚ × Nat),
      S.Perm (([[], [], []] : List Vec).enum.map (fun p => (dot [] p.2, p.1))) ∧
      S.Pairwise rankRel ∧
      searchIndex [[], [], []] [] 2 = .ok (S.take (min (Int.toNat 2) 3)) ∧
      ∀ pairs, searchIndex [[], [], []] [] 2 = .ok pairs →
        pairs.Pairwise (fun a b => b.1 ≤ a.1) :=
  ⟨by decide, by decide, searchIndex_topk [[], [], []] [] 2 (by decide) (by decide)⟩

/-- filterMap keeps its length when every element maps to some. -/
theorem length_filterMap_all_some {α β : Type} (f : α → Option β) :
    ∀ l : List α, (∀ a ∈ l, (f a).isSome) →
      (l.filterMap f).length = l.length
  | [], _ => rfl
  | a :: l, h => by
    cases hfa : f a with
    | none =>
      exact absurd (h a (List.mem_cons_self a l)) (by simp [hfa])
    | some b =>
      simp only [List.filterMap_cons, hfa, List.length_cons]
      rw [length_filterMap_all_some f l
        (fun x hx => h x (List.mem_cons_of_mem a hx))]

/-- Result assembly keeps every pair whose document index is in range. -/
theorem assembleResults_length (md : List Doc) (pairs : List (ℚ × Nat))
    (h : ∀ pr ∈ pairs, pr.2 < md.length) :
    (assembleResults md pairs).length = pairs.length := by
  unfold assembleResults
  rw [length_filterMap_all_some]
  · exact List.enum_length
  · rintro ⟨i, pr⟩ ha
    have ha2 : pr ∈ pairs :=
      List.getElem?_mem (List.mk_mem_enum_iff_getElem?.mp ha)
    simp only [if_pos (h pr ha2), Option.isSome_some]

/-- Every assembled result draws its fields from the metadata document at its
document_index. -/
theorem assembleResults_mem (md : List Doc) (pairs : List (ℚ × Nat)) :
    ∀ r ∈ assembleResults md pairs,
      r.document_index < md.length ∧
      r.content = (md.getD r.document_index default).content ∧
      r.source = (md.getD r.document_index default).source ∧
      r.country = (md.getD r.document_index default).country ∧
      r.category = (md.getD r.document_index default).category := by
  intro r hr
  unfold assembleResults at hr
  obtain ⟨a, _, hfa⟩ := List.mem_filterMap.mp hr
  by_cases hc : a.2.2 < md.length
  · rw [if_pos hc] at hfa
    cases hfa
    exact ⟨hc, rfl, rfl, rfl, rfl⟩
  · rw [if_neg hc] at hfa
    exact Option.noConfusion hfa

/-- Count of results a ready retrieve returns: min of the defaulted
max_results and the corpus size, provided that value is positive and the
state is index-aligned. -/
theorem retrieve_context_count (nrm : Vec → Vec) (s : RAGState)
    (req : RAGQuery) (emb : Embedder) (stored : List Vec) (v : Vec)
    (hemb : s.embedder = some emb) (hidx : s.index = some stored)
    (hq : emb (enhanceQuery req.query req.country req.category) = .ok v)
    (hk1 : 1 ≤ orFive req.max_results)
    (hN : s.documents ≠ [])
    (halign : stored.length = s.documents.length)
    (hmeta : s.documents.length ≤ s.metadata.length) :
    ∃ resp, retrieve_context nrm s req = .ok resp ∧
      resp.results.length =
        min (orFive req.max_results).toNat s.documents.length ∧
      resp.total_results =
        min (orFive req.max_results).toNat s.documents.length := by
  have hN0 : 0 < s.documents.length := List.length_pos.mpr hN
  have hkpos : 0 < min (orFive req.max_results) (s.documents.length : Int) := by
    omega
  have hsearch := searchIndex_pos stored (nrm v)
    (min (orFive req.max_results) (s.documents.length : Int)) hkpos
  have hret := retrieve_context_ok nrm s req emb stored v _
    hemb hidx hq hsearch
  have hmem : ∀ pr ∈ (List.insertionSort rankRel
      (stored.enum.map (fun p => (dot (nrm v) p.2, p.1)))).take
        (min (min (orFive req.max_results)
          (s.documents.length : Int)).toNat stored.length),
      pr.2 < s.metadata.length := fun pr hpr =>
    lt_of_lt_of_le
      (lt_of_lt_of_le
        (searchIndex_mem stored (nrm v) _ _ hsearch pr hpr) (le_of_eq halign))
      hmeta
  have hlen : (assembleResults s.metadata
      ((List.insertionSort rankRel
        (stored.enum.map (fun p => (dot (nrm v) p.2, p.1)))).take
          (min (min (orFive req.max_results)
            (s.documents.length : Int)).toNat stored.length))).length =
      min (orFive req.max_results).toNat s.documents.length := by
    rw [assembleResults_length _ _ hmem,
      searchIndex_length stored (nrm v) _ _ hsearch]
    omega
  exact ⟨_, hret, hlen, hlen⟩

/-- C4: with positive max_results m on a ready, index-aligned state with a
non-empty corpus of N documents, retrieve_context succeeds and returns
exactly min(m, N) results — in particular exactly N results, and no error,
when m exceeds N. -/
theorem retrieve_context_result_count (nrm : Vec → Vec) (s : RAGState)
    (req : RAGQuery) (emb : Embedder) (stored : List Vec) (v : Vec) (m : Int)
    (hemb : s.embedder = some emb) (hidx : s.index = some stored)
    (hq : emb (enhanceQuery req.query req.country req.category) = .ok v)
    (hmr : req.max_results = some m) (hm : 1 ≤ m)
    (hN : s.documents ≠ [])
    (halign : stored.length = s.documents.length)
    (hmeta : s.documents.length ≤ s.metadata.length) :
    ∃ resp, retrieve_context nrm s req = .ok resp ∧
      resp.results.length = min m.toNat s.documents.length ∧
      resp.total_results = min m.toNat s.documents.length := by
  have horf : orFive req.max_results = m := by
    rw [hmr]; simp only [orFive]; rw [if_neg (by omega)]
  obtain ⟨resp, hresp, h1, h2⟩ := retrieve_context_count nrm s req emb stored v
    hemb hidx hq (by omega) hN halign hmeta
  exact ⟨resp, hresp, by rw [h1, horf], by rw [h2, horf]⟩

/-- C4 witness: max_results = 5 on the concrete three-document state yields
exactly three results. -/
theorem retrieve_context_result_count_witness :
    (1 : Int) ≤ 5 ∧
    ∃ resp, retrieve_context id testState
        { query := "visa requirements", max_results := some 5 } = .ok resp ∧
      resp.results.length = min (Int.toNat 5) 3 ∧
      resp.total_results = min (Int.toNat 5) 3 :=
  ⟨by decide, retrieve_context_result_count id testState
    { query := "visa requirements", max_results := some 5 }
    zeroDimEmbedder [[], [], []] [] 5 rfl rfl rfl rfl (by decide)
    (by decide) (by decide) (by decide)⟩

/-- Two requests that differ only in max_results behave identically whenever
the or-defaulted values agree. -/
theorem retrieve_context_congr_orFive (nrm : Vec → Vec) (s : RAGState)
    (q : String) (c cat : Option String) (mr1 mr2 : Option Int)
    (h : orFive mr1 = orFive mr2) :
    retrieve_context nrm s
        { query := q, country := c, category := cat, max_results := mr1 } =
      retrieve_context nrm s
        { query := q, country := c, category := cat, max_results := mr2 } := by
  obtain ⟨oe, oi, docs, md, le⟩ := s
  cases oe <;> cases oi <;> try rfl
  simp only [retrieve_context, h]

/-- C9: a request with max_results = 0 is not rejected and does not return
zero results: through the or-default it behaves exactly like max_results = 5,
like an explicit null max_results, and like an omitted max_results (whose
pydantic default is 5); on a ready, index-aligned, non-empty corpus it
returns min(5, N) ≥ 1 results. -/
theorem retrieve_context_zero_max_results (nrm : Vec → Vec) (s : RAGState)
    (q : String) (c cat : Option String) :
    (retrieve_context nrm s
        { query := q, country := c, category := cat, max_results := some 0 } =
      retrieve_context nrm s
        { query := q, country := c, category := cat, max_results := some 5 }) ∧
    (retrieve_context nrm s
        { query := q, country := c, category := cat, max_results := some 0 } =
      retrieve_context nrm s
        { query := q, country := c, category := cat, max_results := none }) ∧
    (retrieve_context nrm s
        { query := q, country := c, category := cat, max_results := some 0 } =
      retrieve_context nrm s { query := q, country := c, category := cat }) ∧
    (∀ emb stored v, s.embedder = some emb → s.index = some stored →
      emb (enhanceQuery q c cat) = .ok v → s.documents ≠ [] →
      stored.length = s.documents.length →
      s.documents.length ≤ s.metadata.length →
      ∃ resp, retrieve_context nrm s
          { query := q, country := c, category := cat,
            max_results := some 0 } = .ok resp ∧
        resp.results.length = min 5 s.documents.length ∧
        0 < resp.results.length) := by
  refine ⟨retrieve_context_congr_orFive nrm s q c cat _ _ (by decide),
    retrieve_context_congr_orFive nrm s q c cat _ _ (by decide),
    retrieve_context_congr_orFive nrm s q c cat _ _ (by decide),
    fun emb stored v hemb hidx hq hN halign hmeta => ?_⟩
  have ho : orFive ({ query := q, country := c, category := cat, max_results := some 0 } : RAGQuery).max_results = 5 := rfl
  obtain ⟨resp, hresp, h1, _⟩ := retrieve_context_count nrm s
    { query := q, country := c, category := cat, max_results := some 0 }
    emb stored v hemb hidx hq (show (1 : Int) ≤ orFive (some 0) by decide)
    hN halign hmeta
  have hN0 : 0 < s.documents.length := List.length_pos.mpr hN
  refine ⟨resp, hresp, ?_, ?_⟩ <;> rw [h1, ho] <;> omega

/-- C9 witness: max_results = 0 on the concrete state coincides with the
default and yields three (not zero) results. -/
theorem retrieve_context_zero_max_results_witness :
    (retrieve_context id testState
        { query := "visa requirements", country := none,
          category := some "general", max_results := some 0 } =
      retrieve_context id testState
        { query := "visa requirements", country := none,
          category := some "general", max_results := some 5 }) ∧
    ∃ resp, retrieve_context id testState
        { query := "visa requirements", country := none,
          category := some "general", max_results := some 0 } = .ok resp ∧
      resp.results.length = min 5 3 ∧ 0 < resp.results.length :=
  ⟨(retrieve_context_zero_max_results id testState
      "visa requirements" none (some "general")).1,
   (retrieve_context_zero_max_results id testState
      "visa requirements" none (some "general")).2.2.2
     zeroDimEmbedder [[], [], []] [] rfl rfl rfl (by decide) (by decide)
     (by decide)⟩

/-- A successful batch encoding embeds as many vectors as texts. -/
theorem encodeAll_ok_length (emb : Embedder) :
    ∀ (ts : List String) (vs : List Vec),
      encodeAll emb ts = .ok vs → vs.length = ts.length
  | [], vs, h => by cases h; rfl
  | t :: ts, vs, h => by
    simp only [encodeAll] at h
    cases he : emb t with
    | error e => rw [he] at h; exact Except.noConfusion h
    | ok v =>
      rw [he] at h
      cases hr : encodeAll emb ts with
      | error e => rw [hr] at h; exact Except.noConfusion h
      | ok vs2 =>
        rw [hr] at h
        cases h
        simp [encodeAll_ok_length emb ts vs2 hr]

/-- A successful batch encoding embeds each text to the vector at the same
position. -/
theorem encodeAll_ok_get (emb : Embedder) :
    ∀ (ts : List String) (vs : List Vec), encodeAll emb ts = .ok vs →
      ∀ (i : Nat) (hi : i < ts.length) (hi2 : i < vs.length),
        emb (ts.get ⟨i, hi⟩) = .ok (vs.get ⟨i, hi2⟩)
  | [], _, _, i, hi, _ => absurd hi (by simp)
  | t :: ts, vs, h, i, hi, hi2 => by
    simp only [encodeAll] at h
    cases he : emb t with
    | error e => rw [he] at h; exact Except.noConfusion h
    | ok v =>
      rw [he] at h
      cases hr : encodeAll emb ts with
      | error e => rw [hr] at h; exact Except.noConfusion h
      | ok vs2 =>
        rw [hr] at h
        cases h
        cases i with
        | zero => exact he
        | succ n =>
          exact encodeAll_ok_get emb ts vs2 hr n
            (by simpa using hi) (by simpa using hi2)

/-- C7 counterexample: run initialization from the pre-init state with a
model whose document embedding raises. The failure is recorded and no index
exists (the build did not complete), yet the embedder and documents globals
keep their newly assigned values — observable state that is neither fully
initialized nor the pre-init null state, refuting atomicity. -/
theorem initialize_simple_rag_not_atomic :
    (initialize_simple_rag (.ok failingEmbedder) id initState).loading_error =
        some "model inference failed" ∧
    (initialize_simple_rag (.ok failingEmbedder) id initState).index = none ∧
    (initialize_simple_rag (.ok failingEmbedder) id initState).embedder =
        some failingEmbedder ∧
    (initialize_simple_rag (.ok failingEmbedder) id initState).documents ≠
        initState.documents := by
  refine ⟨rfl, rfl, rfl, ?_⟩
  intro h
  exact List.noConfusion h

/-- C7 amended: initialization is not atomic — globals assigned before the
failing step persist — but every failure starting from the pre-init state
captures the error in loading_error and leaves no index, so the not-ready
guard still blocks every retrieve; a model-load failure leaves exactly the
pre-init state plus the captured error; and when nothing fails the state is
fully initialized. -/
theorem initialize_simple_rag_failure_modes
    (loadModel : Except String Embedder) (nrm : Vec → Vec) :
    (∀ e, loadModel = .error e →
      initialize_simple_rag loadModel nrm initState =
        { initState with loading_error := some e }) ∧
    (∀ emb e, loadModel = .ok emb →
      encodeAll emb (get_emigration_documents.map (fun d => d.content)) =
        .error e →
      (initialize_simple_rag loadModel nrm initState).loading_error = some e ∧
      (initialize_simple_rag loadModel nrm initState).index = none ∧
      (initialize_simple_rag loadModel nrm initState).embedder = some emb ∧
      (initialize_simple_rag loadModel nrm initState).documents =
        get_emigration_documents) ∧
    (∀ emb vecs, loadModel = .ok emb →
      encodeAll emb (get_emigration_documents.map (fun d => d.content)) =
        .ok vecs →
      initialize_simple_rag loadModel nrm initState =
        { embedder := some emb, index := some (vecs.map nrm),
          documents := get_emigration_documents,
          metadata := get_emigration_documents, loading_error := none }) ∧
    ((initialize_simple_rag loadModel nrm initState).index = none →
      ∀ req, retrieve_context nrm
          (initialize_simple_rag loadModel nrm initState) req =
        .error (.notInitialized
          (initialize_simple_rag loadModel nrm initState).loading_error)) := by
  refine ⟨?_, ?_, ?_, ?_⟩
  · intro e he
    rw [he]
    rfl
  · intro emb e he henc
    rw [he]
    simp [initialize_simple_rag, henc, initState]
  · intro emb vecs he henc
    rw [he]
    simp [initialize_simple_rag, henc, initState]
  · intro hidx req
    exact retrieve_context_not_ready_aux nrm _ req (Or.inr hidx)

/-- C7 amended witness: the failing-embedder run, through the second
failure mode. -/
theorem initialize_simple_rag_failure_modes_witness :
    (initialize_simple_rag (.ok failingEmbedder) id initState).loading_error =
        some "model inference failed" ∧
    (initialize_simple_rag (.ok failingEmbedder) id initState).index = none ∧
    (initialize_simple_rag (.ok failingEmbedder) id initState).embedder =
        some failingEmbedder ∧
    (initialize_simple_rag (.ok failingEmbedder) id initState).documents =
        get_emigration_documents :=
  (initialize_simple_rag_failure_modes (.ok failingEmbedder) id).2.1
    failingEmbedder "model inference failed" rfl rfl

/-- Every result of a successful retrieve draws content, source, country and
category from the metadata document at its returned document_index. -/
theorem retrieve_context_results_from_metadata (nrm : Vec → Vec)
    (s : RAGState) (req : RAGQuery) (resp : RAGResponse)
    (h : retrieve_context nrm s req = .ok resp) :
    ∀ r ∈ resp.results,
      r.document_index < s.metadata.length ∧
      r.content = (s.metadata.getD r.document_index default).content ∧
      r.source = (s.metadata.getD r.document_index default).source ∧
      r.country = (s.metadata.getD r.document_index default).country ∧
      r.category = (s.metadata.getD r.document_index default).category := by
  obtain ⟨oe, oi, docs, md, le⟩ := s
  cases oe with
  | none => cases oi <;> exact Except.noConfusion h
  | some emb =>
    cases oi with
    | none => exact Except.noConfusion h
    | some stored =>
      cases hv : emb (enhanceQuery req.query req.country req.category) with
      | error msg =>
        rw [retrieve_context_embed_error nrm _ req emb stored msg rfl rfl hv]
          at h
        exact Except.noConfusion h
      | ok v =>
        rw [retrieve_context_eq nrm _ req emb stored v rfl rfl hv] at h
        split at h
        · exact Except.noConfusion h
        · cases h
          exact assembleResults_mem _ _

/-- C8: after a successful build, the corpus store is index-aligned with the
similarity index: equal lengths, the i-th stored vector is the normalized
embedding of the i-th document's content, and metadata coincides with
documents; moreover every result any retrieve returns draws its
content/source/country/category from the metadata document at its returned
document_index. -/
theorem initialize_simple_rag_alignment (nrm : Vec → Vec) (emb : Embedder)
    (vecs : List Vec) (f : RAGState)
    (henc : encodeAll emb (get_emigration_documents.map (fun d => d.content)) =
      .ok vecs)
    (hf : f = initialize_simple_rag (.ok emb) nrm initState) :
    ∃ stored, f.index = some stored ∧
      stored.length = f.documents.length ∧
      f.metadata = f.documents ∧
      (∀ i (hi : i < f.documents.length) (hi2 : i < stored.length),
        ∃ v, emb ((f.documents.get ⟨i, hi⟩).content) = .ok v ∧
          stored.get ⟨i, hi2⟩ = nrm v) ∧
      (∀ (s : RAGState) (req : RAGQuery) (resp : RAGResponse),
        retrieve_context nrm s req = .ok resp → ∀ r ∈ resp.results,
          r.document_index < s.metadata.length ∧
          r.content = (s.metadata.getD r.document_index default).content ∧
          r.source = (s.metadata.getD r.document_index default).source ∧
          r.country = (s.metadata.getD r.document_index default).country ∧
          r.category = (s.metadata.getD r.document_index default).category) := by
  have hlen := encodeAll_ok_length emb _ _ henc
  rw [List.length_map] at hlen
  have hrun : initialize_simple_rag (.ok emb) nrm initState =
      { embedder := some emb, index := some (vecs.map nrm),
        documents := get_emigration_documents,
        metadata := get_emigration_documents, loading_error := none } := by
    simp [initialize_simple_rag, henc, initState]
  subst hf
  rw [hrun]
  refine ⟨vecs.map nrm, rfl, ?_, rfl, ?_, ?_⟩
  · rw [List.length_map, hlen]
  · intro i hi hi2
    rw [List.length_map] at hi2
    refine ⟨vecs.get ⟨i, hi2⟩, ?_, ?_⟩
    · have hg := encodeAll_ok_get emb _ _ henc i
        (by rw [List.length_map]; exact hi) hi2
      simp only [List.get_eq_getElem, List.getElem_map] at hg
      simpa using hg
    · simp [List.get_eq_getElem, List.getElem_map]
  · exact retrieve_context_results_from_metadata nrm

/-- C8 witness: a concrete successful build with a constant embedder. -/
theorem initialize_simple_rag_alignment_witness :
    ∃ stored,
      (initialize_simple_rag (.ok zeroDimEmbedder) id initState).index =
        some stored ∧
      stored.length =
        (initialize_simple_rag (.ok zeroDimEmbedder) id
          initState).documents.length ∧
      (initialize_simple_rag (.ok zeroDimEmbedder) id initState).metadata =
        (initialize_simple_rag (.ok zeroDimEmbedder) id initState).documents ∧
      (∀ i (hi : i < (initialize_simple_rag (.ok zeroDimEmbedder) id
            initState).documents.length) (hi2 : i < stored.length),
        ∃ v, zeroDimEmbedder
            (((initialize_simple_rag (.ok zeroDimEmbedder) id
              initState).documents.get ⟨i, hi⟩).content) = .ok v ∧
          stored.get ⟨i, hi2⟩ = id v) ∧
      (∀ (s : RAGState) (req : RAGQuery) (resp : RAGResponse),
        retrieve_context id s req = .ok resp → ∀ r ∈ resp.results,
          r.document_index < s.metadata.length ∧
          r.content = (s.metadata.getD r.document_index default).content ∧
          r.source = (s.metadata.getD r.document_index default).source ∧
          r.country = (s.metadata.getD r.document_index default).country ∧
          r.category = (s.metadata.getD r.document_index default).category) :=
  initialize_simple_rag_alignment id zeroDimEmbedder
    [[], [], [], [], [], [], [], []] _ rfl rfl
